import Mathlib

/-!
Verification of the go-promises library (gotomgo/go-promises).

The development shallowly embeds the promise cell of promise.go: a heap of
cells (`World`), the write-once result slot (`PromiseState.result`), the four
handler collections, and an interpreter `exec` that translates the mutually
recursive delivery / notification / handler-closure code of the source.
Machine concurrency is modelled as sequential interleaving of operations;
fuel makes the mutual recursion (deliver -> notify -> handler -> deliver on a
bridge promise) structural.  Panics are explicit: a handler invocation may
return a `GoPanic`; the notification dispatcher converts it into a diagnostic
log event (the `defer`/`recover` wrappers `notifySuccess` etc.), while the
direct synchronous invocation performed by a registration call on a resolved
promise propagates it, exactly as in the source.
-/

namespace GoPromise

/-- Values of the Go `error` interface as used by the library.  The
`promiseCanceled` constructor models the package level `ErrPromiseCanceled`
singleton, which the source compares by identity; `userErr n` is any other
distinct error value supplied by callers. -/
inductive GoError where
  | promiseCanceled
  | userErr (n : Nat)
deriving DecidableEq, Repr

/-- Values of Go `interface\x7b\x7d` that can flow through the library: the nil
interface, plain payloads, error values, references to other promise cells
(`Controller` values, identified by heap id), and the unexported `nilResult`
sentinel the source stores in place of a nil delivery. -/
inductive GoVal where
  | nil
  | boolV (b : Bool)
  | intV (n : Int)
  | errV (e : GoError)
  | ctrlV (pid : Nat)
  | nilResultV
deriving DecidableEq, Repr

/-- An opaque user-supplied callback: its identity and whether invoking it
raises a runtime panic. -/
structure Handler where
  id : Nat
  panics : Bool
deriving DecidableEq, Repr

/-- A promise factory (the `Factory` / `FactoryWithResult` prototypes):
`const pid` returns the existing promise cell `pid`, which is exactly the
closure `func() Promise \x7b return promise \x7d` that `Then` builds, and stands
for a user factory returning that cell. -/
inductive FactoryCode where
  | const (pid : Nat)
deriving DecidableEq, Repr

/-- The callbacks that can sit in a handler collection: opaque user handlers,
and the specific closures the combinators of promise.go register.
`forwardTo bid` is `func(p3 Controller) \x7b result.DeliverWithPromise(p3) \x7d`;
`thenfCode` / `thenWithResultCode` are the always-handlers of `Thenf` and
`ThenWithResult`; `allStep bid ctr` is the always-handler of `all`, sharing
the atomic countdown `ctr`. -/
inductive HandlerCode where
  | user (h : Handler)
  | forwardTo (bid : Nat)
  | thenfCode (fac : FactoryCode) (bid : Nat)
  | thenWithResultCode (fac : FactoryCode) (bid : Nat)
  | allStep (bid : Nat) (ctr : Nat)
deriving DecidableEq, Repr

/-- The state of one `promise` struct: the atomic result slot (`none` while
pending) and the four handler slices. -/
structure PromiseState where
  result : Option GoVal
  successHandlers : List HandlerCode
  catchHandlers : List HandlerCode
  alwaysHandlers : List HandlerCode
  canceledHandlers : List HandlerCode
deriving DecidableEq, Repr

/-- A freshly constructed promise (`NewPromise`). -/
def emptyPromise : PromiseState :=
  { result := none, successHandlers := [], catchHandlers := [],
    alwaysHandlers := [], canceledHandlers := [] }

/-- `IsDelivered`: the atomic result slot is non-nil. -/
def PromiseState.IsDelivered (p : PromiseState) : Bool :=
  p.result.isSome

/-- `IsPending`: negation of `IsDelivered`. -/
def PromiseState.IsPending (p : PromiseState) : Bool :=
  !p.IsDelivered

/-- `Error`: the stored value type-asserted to `error` (`none` when the slot
is empty or holds a non-error). -/
def PromiseState.Error (p : PromiseState) : Option GoError :=
  match p.result with
  | some (GoVal.errV e) => some e
  | _ => none

/-- `RawResult`: the stored value verbatim, with the `nilResult` sentinel
translated back to nil. -/
def PromiseState.RawResult (p : PromiseState) : GoVal :=
  match p.result with
  | none => GoVal.nil
  | some GoVal.nilResultV => GoVal.nil
  | some v => v

/-- `Result`: the successful payload, nil for errors and for the sentinel. -/
def PromiseState.Result (p : PromiseState) : GoVal :=
  match p.result with
  | none => GoVal.nil
  | some (GoVal.errV _) => GoVal.nil
  | some GoVal.nilResultV => GoVal.nil
  | some v => v

/-- `IsFailed`: delivered with an error. -/
def PromiseState.IsFailed (p : PromiseState) : Bool :=
  p.Error.isSome

/-- `IsError`: alias for `IsFailed`. -/
def PromiseState.IsError (p : PromiseState) : Bool :=
  p.IsFailed

/-- `IsSuccess`: delivered and the stored value is not an error. -/
def PromiseState.IsSuccess (p : PromiseState) : Bool :=
  match p.result with
  | none => false
  | some (GoVal.errV _) => false
  | some _ => true

/-- `IsCanceled`: the stored error is the `ErrPromiseCanceled` singleton. -/
def PromiseState.IsCanceled (p : PromiseState) : Bool :=
  p.Error = some GoError.promiseCanceled

/-- Observable events: handler invocations with their arguments, factory
invocations performed by the `Then` family, the diagnostic log emitted when a
recovered panic is swallowed by a notify wrapper, and the diagnostic log for
an attempt to deliver an already delivered promise. -/
inductive Event where
  | successCall (id : Nat) (arg : GoVal)
  | catchCall (id : Nat) (err : Option GoError)
  | canceledCall (id : Nat)
  | alwaysCall (id : Nat) (pid : Nat)
  | factoryCall (arg : Option GoVal)
  | panicLog
  | doubleDeliverLog
deriving DecidableEq, Repr

/-- A runtime panic: the fatal contract violation of `DeliverWithPromise` on
a pending source, or a panic raised by a user handler. -/
inductive GoPanic where
  | deliverPending
  | handlerPanic (id : Nat)
deriving DecidableEq, Repr

/-- The argument a handler invocation receives, per category. -/
inductive HandlerArg where
  | success (v : GoVal)
  | failure (e : Option GoError)
  | canceledA
  | always (pid : Nat)
deriving DecidableEq, Repr

/-- The whole heap: promise cells and the shared countdown integers used by
`all`, with bump allocators for both, plus the event trace. -/
structure World where
  cells : Nat → PromiseState
  ctrs : Nat → Int
  nextCell : Nat
  nextCtr : Nat
  events : List Event

/-- Append a diagnostic or invocation event. -/
def World.log (w : World) (e : Event) : World :=
  { w with events := w.events ++ [e] }

/-- Overwrite one promise cell. -/
def World.setCell (w : World) (pid : Nat) (s : PromiseState) : World :=
  { w with cells := fun i => if i = pid then s else w.cells i }

/-- Overwrite one countdown integer. -/
def World.setCtr (w : World) (n : Nat) (v : Int) : World :=
  { w with ctrs := fun i => if i = n then v else w.ctrs i }

/-- The event a user handler invocation records, per category. -/
def userEvent (h : Handler) : HandlerArg → Event
  | HandlerArg.success v => Event.successCall h.id v
  | HandlerArg.failure e => Event.catchCall h.id e
  | HandlerArg.canceledA => Event.canceledCall h.id
  | HandlerArg.always pid => Event.alwaysCall h.id pid

/-- Evaluate a factory to the promise cell it returns. -/
def evalFactory : FactoryCode → Nat
  | FactoryCode.const pid => pid

/-- The pending internal calls of the interpreter: `deliver`, `notify`, the
notification loop over a copied handler slice (each element invoked under the
panic-recovery wrapper), one raw handler invocation, `Always` registration
(the only registration the combinator closures perform internally), and
`DeliverWithPromise`. -/
inductive Call where
  | deliverC (pid : Nat) (v : GoVal)
  | notifyC (pid : Nat)
  | runListC (hs : List HandlerCode) (arg : HandlerArg)
  | runHandlerC (code : HandlerCode) (arg : HandlerArg)
  | alwaysRegC (pid : Nat) (code : HandlerCode)
  | deliverWithPromiseC (pid : Nat) (src : Nat)
deriving DecidableEq, Repr

/-- One step of the interpreter, parameterised by the recursive interpreter
`rec` used for nested calls.  Each branch is the direct translation of the
corresponding function of promise.go (see `exec`). -/
def execF (rec : World → Call → World × Option GoPanic) (w : World) :
    Call → World × Option GoPanic
  | Call.deliverC pid v =>
    let st := w.cells pid
    if st.result.isSome then
      (w.log Event.doubleDeliverLog, none)
    else
      let v2 := if v = GoVal.nil then GoVal.nilResultV else v
      rec (w.setCell pid { st with result := some v2 }) (Call.notifyC pid)
  | Call.notifyC pid =>
    let st := w.cells pid
    if st.IsSuccess then
      let w1 := (rec w (Call.runListC st.successHandlers (HandlerArg.success st.Result))).1
      ((rec w1 (Call.runListC (w1.cells pid).alwaysHandlers (HandlerArg.always pid))).1, none)
    else
      let err := st.Error
      let w1 := (rec w (Call.runListC st.catchHandlers (HandlerArg.failure err))).1
      let w2 := if err = some GoError.promiseCanceled then
          (rec w1 (Call.runListC (w1.cells pid).canceledHandlers HandlerArg.canceledA)).1
        else w1
      ((rec w2 (Call.runListC (w2.cells pid).alwaysHandlers (HandlerArg.always pid))).1, none)
  | Call.runListC hs arg =>
    match hs with
    | [] => (w, none)
    | h :: rest =>
      let r := rec w (Call.runHandlerC h arg)
      let w1 := if r.2.isSome then r.1.log Event.panicLog else r.1
      rec w1 (Call.runListC rest arg)
  | Call.runHandlerC code arg =>
    match code with
    | HandlerCode.user h =>
      let w1 := w.log (userEvent h arg)
      if h.panics then (w1, some (GoPanic.handlerPanic h.id)) else (w1, none)
    | HandlerCode.forwardTo bid =>
      match arg with
      | HandlerArg.always pid => rec w (Call.deliverWithPromiseC bid pid)
      | _ => (w, none)
    | HandlerCode.thenfCode fac bid =>
      match arg with
      | HandlerArg.always pid =>
        if (w.cells pid).IsSuccess then
          rec (w.log (Event.factoryCall none))
            (Call.alwaysRegC (evalFactory fac) (HandlerCode.forwardTo bid))
        else
          rec w (Call.deliverWithPromiseC bid pid)
      | _ => (w, none)
    | HandlerCode.thenWithResultCode fac bid =>
      match arg with
      | HandlerArg.always pid =>
        if (w.cells pid).IsSuccess then
          rec (w.log (Event.factoryCall (some (w.cells pid).Result)))
            (Call.alwaysRegC (evalFactory fac) (HandlerCode.forwardTo bid))
        else
          rec w (Call.deliverWithPromiseC bid pid)
      | _ => (w, none)
    | HandlerCode.allStep bid ctr =>
      match arg with
      | HandlerArg.always pid =>
        if (w.cells pid).IsFailed then
          rec w (Call.deliverWithPromiseC bid pid)
        else
          let c := w.ctrs ctr - 1
          let w1 := w.setCtr ctr c
          if c = 0 then rec w1 (Call.deliverC bid (GoVal.boolV true)) else (w1, none)
      | _ => (w, none)
  | Call.alwaysRegC pid code =>
    let st := w.cells pid
    if st.IsDelivered then
      rec w (Call.runHandlerC code (HandlerArg.always pid))
    else
      (w.setCell pid { st with alwaysHandlers := st.alwaysHandlers ++ [code] }, none)
  | Call.deliverWithPromiseC pid src =>
    if (w.cells src).IsPending then
      (w, some GoPanic.deliverPending)
    else
      rec w (Call.deliverC pid ((w.cells src).RawResult))

/-- The fuelled interpreter.  Fuel bounds only the depth of nested calls;
exhausted fuel returns the world unchanged and never occurs in the scenarios
proved below. -/
def exec : Nat → World → Call → World × Option GoPanic
  | 0, w, _ => (w, none)
  | fuel + 1, w, c => execF (exec fuel) w c

/-- `Succeed`: deliver with the canonical value `true`. -/
def Succeed (fuel : Nat) (w : World) (pid : Nat) : World × Option GoPanic :=
  exec fuel w (Call.deliverC pid (GoVal.boolV true))

/-- `SucceedWithResult`: deliver with an explicit payload. -/
def SucceedWithResult (fuel : Nat) (w : World) (pid : Nat) (v : GoVal) :
    World × Option GoPanic :=
  exec fuel w (Call.deliverC pid v)

/-- `Fail`: deliver with a caller-supplied `error` value (`none` models a nil
error interface, which converts to the nil interface value). -/
def Fail (fuel : Nat) (w : World) (pid : Nat) (e : Option GoError) :
    World × Option GoPanic :=
  exec fuel w (Call.deliverC pid
    (match e with | none => GoVal.nil | some e2 => GoVal.errV e2))

/-- `Cancel`: deliver with the `ErrPromiseCanceled` singleton. -/
def Cancel (fuel : Nat) (w : World) (pid : Nat) : World × Option GoPanic :=
  exec fuel w (Call.deliverC pid (GoVal.errV GoError.promiseCanceled))

/-- `DeliverWithPromise`: transplant the raw outcome of `src`; panics when
`src` is still pending. -/
def DeliverWithPromise (fuel : Nat) (w : World) (pid src : Nat) :
    World × Option GoPanic :=
  exec fuel w (Call.deliverWithPromiseC pid src)

/-- `Deliver`: dispatch on the dynamic type of the argument (a `Controller`
goes through `DeliverWithPromise`, everything else through `deliver`). -/
def Deliver (fuel : Nat) (w : World) (pid : Nat) (v : GoVal) :
    World × Option GoPanic :=
  match v with
  | GoVal.ctrlV src => DeliverWithPromise fuel w pid src
  | _ => exec fuel w (Call.deliverC pid v)

/-- `Success` registration: direct synchronous invocation (without the
recovery wrapper) when the promise is already successfully delivered,
deferred append otherwise. -/
def Success (fuel : Nat) (w : World) (pid : Nat) (code : HandlerCode) :
    World × Option GoPanic :=
  let st := w.cells pid
  if st.IsSuccess then
    exec fuel w (Call.runHandlerC code (HandlerArg.success st.Result))
  else
    (w.setCell pid { st with successHandlers := st.successHandlers ++ [code] }, none)

/-- `Catch` registration. -/
def Catch (fuel : Nat) (w : World) (pid : Nat) (code : HandlerCode) :
    World × Option GoPanic :=
  let st := w.cells pid
  if st.IsError then
    exec fuel w (Call.runHandlerC code (HandlerArg.failure st.Error))
  else
    (w.setCell pid { st with catchHandlers := st.catchHandlers ++ [code] }, none)

/-- `Canceled` registration. -/
def Canceled (fuel : Nat) (w : World) (pid : Nat) (code : HandlerCode) :
    World × Option GoPanic :=
  let st := w.cells pid
  if st.IsCanceled then
    exec fuel w (Call.runHandlerC code HandlerArg.canceledA)
  else
    (w.setCell pid { st with canceledHandlers := st.canceledHandlers ++ [code] }, none)

/-- `Always` registration. -/
def Always (fuel : Nat) (w : World) (pid : Nat) (code : HandlerCode) :
    World × Option GoPanic :=
  exec fuel w (Call.alwaysRegC pid code)

/-- `NewPromise`: allocate a fresh pending cell. -/
def newPromise (w : World) : Nat × World :=
  (w.nextCell,
   { w with
      cells := fun i => if i = w.nextCell then emptyPromise else w.cells i,
      nextCell := w.nextCell + 1 })

/-- `Thenf`: allocate the bridge, register the chaining always-handler on the
receiver, return the bridge id. -/
def Thenf (fuel : Nat) (w : World) (pid : Nat) (fac : FactoryCode) :
    (World × Option GoPanic) × Nat :=
  let a := newPromise w
  (Always fuel a.2 pid (HandlerCode.thenfCode fac a.1), a.1)

/-- `Then`: `Thenf` with the constant factory over the given promise. -/
def Then (fuel : Nat) (w : World) (pid : Nat) (target : Nat) :
    (World × Option GoPanic) × Nat :=
  Thenf fuel w pid (FactoryCode.const target)

/-- `ThenWithResult`: like `Thenf` but the factory receives the payload. -/
def ThenWithResult (fuel : Nat) (w : World) (pid : Nat) (fac : FactoryCode) :
    (World × Option GoPanic) × Nat :=
  let a := newPromise w
  (Always fuel a.2 pid (HandlerCode.thenWithResultCode fac a.1), a.1)

/-- The heap id of the package-level `resolved` singleton. -/
def resolvedId : Nat := 0

/-- The initial heap: cell 0 is the `resolved` singleton
(`NewPromise().Succeed()`), everything else unallocated. -/
def initWorld : World :=
  { cells := fun i => if i = 0 then { emptyPromise with result := some (GoVal.boolV true) } else emptyPromise,
    ctrs := fun _ => 0, nextCell := 1, nextCtr := 0, events := [] }

/-- The registration loop of `all`: attach the countdown always-handler to
each source, breaking early when the bridge got delivered synchronously. -/
def allLoop (fuel bid ctr : Nat) : World → List Nat → World × Option GoPanic
  | w, [] => (w, none)
  | w, s :: rest =>
    let r := Always fuel w s (HandlerCode.allStep bid ctr)
    if r.2.isSome then r
    else if (r.1.cells bid).IsDelivered then (r.1, none)
    else allLoop fuel bid ctr r.1 rest

/-- `all`: the join-all combinator.  Zero sources return the `resolved`
singleton; otherwise a bridge cell and a fresh countdown are allocated and
the loop registers on every source. -/
def all (fuel : Nat) (w : World) (srcs : List Nat) :
    (World × Option GoPanic) × Nat :=
  if srcs.length = 0 then ((w, none), resolvedId)
  else
    let a := newPromise w
    let ctr := a.2.nextCtr
    let w2 := { a.2 with
      ctrs := fun i => if i = ctr then (srcs.length : Int) else a.2.ctrs i,
      nextCtr := ctr + 1 }
    (allLoop fuel a.1 ctr w2 srcs, a.1)

/-- `ThenAll`: chain the join-all bridge onto the receiver. -/
def ThenAll (fuel : Nat) (w : World) (pid : Nat) (srcs : List Nat) :
    (World × Option GoPanic) × Nat :=
  let r := all fuel w srcs
  match r.1.2 with
  | some p => ((r.1.1, some p), r.2)
  | none => Then fuel r.1.1 pid r.2

/-- Deliver `Succeed` to a list of cells in order. -/
def succeedSeq (fuel : Nat) : World → List Nat → World
  | w, [] => w
  | w, s :: rest => succeedSeq fuel (Succeed fuel w s).1 rest

/-- Deliver arbitrary non-Controller outcomes to a list of cells in order
(arbitrary interleavings of Succeed / SucceedWithResult / Fail / Cancel). -/
def deliverSeq (fuel : Nat) : World → List (Nat × GoVal) → World
  | w, [] => w
  | w, p :: rest => deliverSeq fuel (exec fuel w (Call.deliverC p.1 p.2)).1 rest

/-- The trace the notification dispatcher produces while running a slice of
user handlers: each handler is invoked (recording its event) and a recovered
panic is logged right after the faulting invocation. -/
def userTrace : List Handler → HandlerArg → List Event
  | [], _ => []
  | h :: rest, arg =>
    userEvent h arg :: (if h.panics then Event.panicLog :: userTrace rest arg else userTrace rest arg)

/-- The cell state of an `all` source right after registration. -/
def regCell (bid ctr : Nat) : PromiseState :=
  { emptyPromise with alwaysHandlers := [HandlerCode.allStep bid ctr] }

/-- The cell state of an `all` source right after it succeeded. -/
def succCell (bid ctr : Nat) : PromiseState :=
  { result := some (GoVal.boolV true), successHandlers := [], catchHandlers := [],
    alwaysHandlers := [HandlerCode.allStep bid ctr], canceledHandlers := [] }

/-- The cell state of an `all` source right after it was canceled. -/
def cancelCell (bid ctr : Nat) : PromiseState :=
  { result := some (GoVal.errV GoError.promiseCanceled), successHandlers := [],
    catchHandlers := [], alwaysHandlers := [HandlerCode.allStep bid ctr],
    canceledHandlers := [] }

/-- Invariant of the join-all scenario: after `all` has been set up over the
distinct pending sources `srcs` and the sources listed in `delivered` have
succeeded (and nothing else happened to these cells), the bridge is still
pending, the countdown holds the number of missing sources, and every source
carries exactly the countdown handler. -/
structure AllScenario (w : World) (bid ctr : Nat) (srcs delivered : List Nat) : Prop where
  srcs_nodup : srcs.Nodup
  del_nodup : delivered.Nodup
  del_sub : ∀ s ∈ delivered, s ∈ srcs
  bid_notin : bid ∉ srcs
  bridge_cell : w.cells bid = emptyPromise
  ctr_val : w.ctrs ctr = (srcs.length : Int) - (delivered.length : Int)
  del_lt : delivered.length < srcs.length
  src_cell : ∀ s ∈ srcs, w.cells s =
    { result := if s ∈ delivered then some (GoVal.boolV true) else none,
      successHandlers := [], catchHandlers := [],
      alwaysHandlers := [HandlerCode.allStep bid ctr], canceledHandlers := [] }

end GoPromise

namespace GoPromise

theorem exec_zero (w : World) (c : Call) : exec 0 w c = (w, none) := rfl

theorem exec_succ (fuel : Nat) (w : World) (c : Call) :
    exec (fuel + 1) w c = execF (exec fuel) w c := rfl

@[simp] theorem log_cells (w : World) (e : Event) : (w.log e).cells = w.cells := rfl

@[simp] theorem log_ctrs (w : World) (e : Event) : (w.log e).ctrs = w.ctrs := rfl

@[simp] theorem log_events (w : World) (e : Event) :
    (w.log e).events = w.events ++ [e] := rfl

@[simp] theorem setCell_cells (w : World) (p : Nat) (s : PromiseState) (i : Nat) :
    (w.setCell p s).cells i = if i = p then s else w.cells i := rfl

@[simp] theorem setCell_ctrs (w : World) (p : Nat) (s : PromiseState) :
    (w.setCell p s).ctrs = w.ctrs := rfl

@[simp] theorem setCell_events (w : World) (p : Nat) (s : PromiseState) :
    (w.setCell p s).events = w.events := rfl

@[simp] theorem setCtr_cells (w : World) (n : Nat) (v : Int) :
    (w.setCtr n v).cells = w.cells := rfl

@[simp] theorem setCtr_ctrs (w : World) (n : Nat) (v : Int) (i : Nat) :
    (w.setCtr n v).ctrs i = if i = n then v else w.ctrs i := rfl

@[simp] theorem setCtr_events (w : World) (n : Nat) (v : Int) :
    (w.setCtr n v).events = w.events := rfl

/-- Write-once monotonicity: no interpreter step ever changes the result slot
of a cell that is already delivered. -/
theorem exec_mono (fuel : Nat) :
    ∀ (c : Call) (w : World) (q : Nat) (r : GoVal),
      (w.cells q).result = some r → (((exec fuel w c).1).cells q).result = some r := by
  induction fuel with
  | zero =>
    intro c w q r h
    simpa [exec_zero] using h
  | succ fuel ih =>
    intro c w q r h
    rw [exec_succ]
    cases c with
    | deliverC pid v =>
      simp only [execF]
      by_cases hd : (w.cells pid).result.isSome
      · simp [hd, h]
      · simp only [hd, Bool.false_eq_true, if_false]
        apply ih
        by_cases hq : q = pid
        · subst hq
          rw [h] at hd
          simp at hd
        · simp [hq, h]
    | notifyC pid =>
      simp only [execF]
      by_cases hS : (w.cells pid).IsSuccess
      · simp only [hS, if_true]
        exact ih _ _ _ _ (ih _ _ _ _ h)
      · simp only [hS, Bool.false_eq_true, if_false]
        by_cases hC : (w.cells pid).Error = some GoError.promiseCanceled
        · simp only [hC, if_true]
          exact ih _ _ _ _ (ih _ _ _ _ (ih _ _ _ _ h))
        · simp only [hC, if_false]
          exact ih _ _ _ _ (ih _ _ _ _ h)
    | runListC hs arg =>
      cases hs with
      | nil => simpa [execF] using h
      | cons hh rest =>
        simp only [execF]
        apply ih
        by_cases hp : (exec fuel w (Call.runHandlerC hh arg)).2.isSome
        · simp only [hp, if_true, log_cells]
          exact ih _ _ _ _ h
        · simp only [hp, Bool.false_eq_true, if_false]
          exact ih _ _ _ _ h
    | runHandlerC code arg =>
      cases code with
      | user hh =>
        simp only [execF]
        by_cases hp : hh.panics <;> simp [hp, h]
      | forwardTo bid =>
        cases arg <;> simp only [execF] <;> try simpa using h
        exact ih _ _ _ _ h
      | thenfCode fac bid =>
        cases arg with
        | always pid =>
          simp only [execF]
          by_cases hS : (w.cells pid).IsSuccess
          · simp only [hS, if_true]
            apply ih
            simpa using h
          · simp only [hS, Bool.false_eq_true, if_false]
            exact ih _ _ _ _ h
        | success v => simpa [execF] using h
        | failure e => simpa [execF] using h
        | canceledA => simpa [execF] using h
      | thenWithResultCode fac bid =>
        cases arg with
        | always pid =>
          simp only [execF]
          by_cases hS : (w.cells pid).IsSuccess
          · simp only [hS, if_true]
            apply ih
            simpa using h
          · simp only [hS, Bool.false_eq_true, if_false]
            exact ih _ _ _ _ h
        | success v => simpa [execF] using h
        | failure e => simpa [execF] using h
        | canceledA => simpa [execF] using h
      | allStep bid ctr =>
        cases arg with
        | always pid =>
          simp only [execF]
          by_cases hF : (w.cells pid).IsFailed
          · simp only [hF, if_true]
            exact ih _ _ _ _ h
          · simp only [hF, Bool.false_eq_true, if_false]
            by_cases hz : w.ctrs ctr - 1 = 0
            · simp only [hz, if_true]
              apply ih
              simpa using h
            · simp only [hz, if_false]
              simpa using h
        | success v => simpa [execF] using h
        | failure e => simpa [execF] using h
        | canceledA => simpa [execF] using h
    | alwaysRegC pid code =>
      simp only [execF]
      by_cases hd : (w.cells pid).IsDelivered
      · simp only [hd, if_true]
        exact ih _ _ _ _ h
      · simp only [hd, Bool.false_eq_true, if_false]
        by_cases hq : q = pid
        · subst hq
          simp [h]
        · simp [hq, h]
    | deliverWithPromiseC pid src =>
      simp only [execF]
      by_cases hp : (w.cells src).IsPending
      · simpa [hp] using h
      · simp only [hp, Bool.false_eq_true, if_false]
        exact ih _ _ _ _ h

end GoPromise

namespace GoPromise

/-- The notification dispatcher never lets a panic escape: its per-handler
recovery wrappers convert panics into diagnostic log events. -/
theorem notify_no_panic (fuel : Nat) (w : World) (pid : Nat) :
    (exec fuel w (Call.notifyC pid)).2 = none := by
  cases fuel with
  | zero => rfl
  | succ fuel =>
    rw [exec_succ]
    simp only [execF]
    by_cases hS : (w.cells pid).IsSuccess
    · simp [hS]
    · by_cases hC : (w.cells pid).Error = some GoError.promiseCanceled <;>
        simp [hS, hC]

/-- The core `deliver` never panics (its dispatch recovers handler faults). -/
theorem deliver_no_panic (fuel : Nat) (w : World) (pid : Nat) (v : GoVal) :
    (exec fuel w (Call.deliverC pid v)).2 = none := by
  cases fuel with
  | zero => rfl
  | succ fuel =>
    rw [exec_succ]
    simp only [execF]
    by_cases hd : (w.cells pid).result.isSome
    · simp [hd]
    · simp only [hd, Bool.false_eq_true, if_false]
      exact notify_no_panic fuel _ pid

/-- Delivering to an already delivered cell only appends the diagnostic log. -/
theorem deliver_already (fuel : Nat) (w : World) (pid : Nat) (v : GoVal) (r : GoVal)
    (hp : (w.cells pid).result = some r) :
    exec (fuel + 1) w (Call.deliverC pid v) = (w.log Event.doubleDeliverLog, none) := by
  rw [exec_succ]
  simp only [execF]
  have hd : (w.cells pid).result.isSome = true := by rw [hp]; rfl
  simp [hd]

end GoPromise

namespace GoPromise

/-- C1: once a cell is delivered, every further delivery operation —
`Succeed`, `SucceedWithResult`, `Fail`, `Cancel`, `Deliver` (with a
non-Controller value or a resolved Controller), `DeliverWithPromise` with a
resolved source — returns the world unchanged except for the recoverable
diagnostic log entry: the stored result, all predicates and accessors, every
other cell and countdown are untouched, no panic is raised, and handler
dispatch is not re-run (no invocation events are produced). -/
theorem C1_write_once (fuel : Nat) (w : World) (pid src : Nat) (r rs v : GoVal)
    (e : Option GoError)
    (hp : (w.cells pid).result = some r)
    (hs : (w.cells src).result = some rs)
    (hv : ∀ s2 : Nat, v ≠ GoVal.ctrlV s2) :
    Succeed (fuel + 1) w pid = (w.log Event.doubleDeliverLog, none) ∧
    SucceedWithResult (fuel + 1) w pid v = (w.log Event.doubleDeliverLog, none) ∧
    Fail (fuel + 1) w pid e = (w.log Event.doubleDeliverLog, none) ∧
    Cancel (fuel + 1) w pid = (w.log Event.doubleDeliverLog, none) ∧
    Deliver (fuel + 1) w pid v = (w.log Event.doubleDeliverLog, none) ∧
    Deliver (fuel + 2) w pid (GoVal.ctrlV src) = (w.log Event.doubleDeliverLog, none) ∧
    DeliverWithPromise (fuel + 2) w pid src = (w.log Event.doubleDeliverLog, none) ∧
    (w.log Event.doubleDeliverLog).cells = w.cells ∧
    (w.log Event.doubleDeliverLog).ctrs = w.ctrs := by
  have hdwp : DeliverWithPromise (fuel + 2) w pid src = (w.log Event.doubleDeliverLog, none) := by
    rw [show fuel + 2 = (fuel + 1) + 1 from rfl]
    unfold DeliverWithPromise
    rw [exec_succ]
    simp only [execF]
    have h1 : (w.cells src).IsPending = false := by
      simp [PromiseState.IsPending, PromiseState.IsDelivered, hs]
    simp only [h1, Bool.false_eq_true, if_false]
    exact deliver_already fuel w pid _ r hp
  refine ⟨deliver_already fuel w pid _ r hp, deliver_already fuel w pid _ r hp,
    deliver_already fuel w pid _ r hp, deliver_already fuel w pid _ r hp, ?_, ?_, hdwp, rfl, rfl⟩
  · cases v with
    | ctrlV s2 => exact absurd rfl (hv s2)
    | nil => exact deliver_already fuel w pid _ r hp
    | boolV b => exact deliver_already fuel w pid _ r hp
    | intV n => exact deliver_already fuel w pid _ r hp
    | errV e2 => exact deliver_already fuel w pid _ r hp
    | nilResultV => exact deliver_already fuel w pid _ r hp
  · exact hdwp

/-- Witness for C1 at a concrete input: the delivered `resolved` cell. -/
theorem C1_write_once_witness :
    (initWorld.cells 0).result = some (GoVal.boolV true) ∧
    (∀ s2 : Nat, GoVal.intV 5 ≠ GoVal.ctrlV s2) ∧
    (Succeed 1 initWorld 0 = (initWorld.log Event.doubleDeliverLog, none) ∧
     SucceedWithResult 1 initWorld 0 (GoVal.intV 5) = (initWorld.log Event.doubleDeliverLog, none) ∧
     Fail 1 initWorld 0 none = (initWorld.log Event.doubleDeliverLog, none) ∧
     Cancel 1 initWorld 0 = (initWorld.log Event.doubleDeliverLog, none) ∧
     Deliver 1 initWorld 0 (GoVal.intV 5) = (initWorld.log Event.doubleDeliverLog, none) ∧
     Deliver 2 initWorld 0 (GoVal.ctrlV 0) = (initWorld.log Event.doubleDeliverLog, none) ∧
     DeliverWithPromise 2 initWorld 0 0 = (initWorld.log Event.doubleDeliverLog, none) ∧
     (initWorld.log Event.doubleDeliverLog).cells = initWorld.cells ∧
     (initWorld.log Event.doubleDeliverLog).ctrs = initWorld.ctrs) :=
  ⟨rfl, fun s2 => by simp,
   C1_write_once 0 initWorld 0 0 (GoVal.boolV true) (GoVal.boolV true) (GoVal.intV 5) none
     rfl rfl (fun s2 => by simp)⟩

/-- C3: the code violates the claim. `Fail(nil)` on a fresh pending promise
converts the nil error interface into the nil delivery value, stores the
`nilResult` sentinel, and therefore resolves the cell as an empty SUCCESS:
`IsSuccess` becomes true and `IsFailed` stays false, contradicting both the
claim and the `Fail` documentation (a failure or a rejected call). -/
theorem C3_fail_nil_empty_success :
    ((Fail 2 (newPromise initWorld).2 1 none).1.cells 1).IsSuccess = true ∧
    ((Fail 2 (newPromise initWorld).2 1 none).1.cells 1).IsFailed = false ∧
    ((Fail 2 (newPromise initWorld).2 1 none).1.cells 1).result = some GoVal.nilResultV ∧
    (Fail 2 (newPromise initWorld).2 1 none).2 = none := by
  decide

end GoPromise

namespace GoPromise

/-- C5 part 2 helper: transplanting a resolved source onto a pending target
stores the source's raw outcome (with the nil / sentinel translation). -/
theorem dwp_resolved_slot (fuel : Nat) (w : World) (p2 s2 : Nat) (rs : GoVal)
    (hres : (w.cells s2).result = some rs)
    (htgt : (w.cells p2).result = none) :
    ((DeliverWithPromise (fuel + 2) w p2 s2).1.cells p2).result =
      some (if (w.cells s2).RawResult = GoVal.nil then GoVal.nilResultV
            else (w.cells s2).RawResult) ∧
    (DeliverWithPromise (fuel + 2) w p2 s2).2 = none := by
  have h1 : (w.cells s2).IsPending = false := by
    simp [PromiseState.IsPending, PromiseState.IsDelivered, hres]
  have h2 : (w.cells p2).result.isSome = false := by simp [htgt]
  have hstep : DeliverWithPromise (fuel + 2) w p2 s2 =
      exec fuel
        (w.setCell p2 { w.cells p2 with
          result := some (if (w.cells s2).RawResult = GoVal.nil then GoVal.nilResultV
                          else (w.cells s2).RawResult) })
        (Call.notifyC p2) := by
    rw [show fuel + 2 = (fuel + 1) + 1 from rfl]
    unfold DeliverWithPromise
    rw [exec_succ]
    simp only [execF, h1, Bool.false_eq_true, if_false]
    rw [exec_succ]
    simp only [execF, h2, Bool.false_eq_true, if_false]
  constructor
  · rw [hstep]
    apply exec_mono
    simp
  · rw [hstep]
    exact notify_no_panic fuel _ p2

end GoPromise

namespace GoPromise

/-- C5: `DeliverWithPromise` on a still-pending source raises the fatal
contract violation panic and leaves the world (in particular the target
cell) completely unchanged; on a resolved source it copies the source's raw
outcome onto a pending target exactly — every accessor and predicate of the
target afterwards equals the source's, including the cancellation marker's
distinctness. -/
theorem C5_deliver_from (fuel : Nat) (w : World) (p1 s1 p2 s2 : Nat) (rs : GoVal)
    (hpend : (w.cells s1).result = none)
    (hres : (w.cells s2).result = some rs)
    (htgt : (w.cells p2).result = none) :
    DeliverWithPromise (fuel + 1) w p1 s1 = (w, some GoPanic.deliverPending) ∧
    (DeliverWithPromise (fuel + 2) w p2 s2).2 = none ∧
    ((DeliverWithPromise (fuel + 2) w p2 s2).1.cells p2).RawResult = (w.cells s2).RawResult ∧
    ((DeliverWithPromise (fuel + 2) w p2 s2).1.cells p2).Result = (w.cells s2).Result ∧
    ((DeliverWithPromise (fuel + 2) w p2 s2).1.cells p2).Error = (w.cells s2).Error ∧
    ((DeliverWithPromise (fuel + 2) w p2 s2).1.cells p2).IsSuccess = (w.cells s2).IsSuccess ∧
    ((DeliverWithPromise (fuel + 2) w p2 s2).1.cells p2).IsFailed = (w.cells s2).IsFailed ∧
    ((DeliverWithPromise (fuel + 2) w p2 s2).1.cells p2).IsCanceled = (w.cells s2).IsCanceled := by
  obtain ⟨hslot, hnp⟩ := dwp_resolved_slot fuel w p2 s2 rs hres htgt
  have hpanic : DeliverWithPromise (fuel + 1) w p1 s1 = (w, some GoPanic.deliverPending) := by
    unfold DeliverWithPromise
    rw [exec_succ]
    simp only [execF]
    have h1 : (w.cells s1).IsPending = true := by
      simp [PromiseState.IsPending, PromiseState.IsDelivered, hpend]
    simp [h1]
  refine ⟨hpanic, hnp, ?_, ?_, ?_, ?_, ?_, ?_⟩ <;>
    cases rs <;>
      simp_all [PromiseState.RawResult, PromiseState.Result, PromiseState.Error,
        PromiseState.IsSuccess, PromiseState.IsFailed, PromiseState.IsCanceled]

/-- Witness for C5 at concrete inputs: pending source cell 1, resolved
source cell 0, pending target cell 2. -/
theorem C5_deliver_from_witness :
    ((newPromise (newPromise initWorld).2).2.cells 1).result = none ∧
    ((newPromise (newPromise initWorld).2).2.cells 0).result = some (GoVal.boolV true) ∧
    ((newPromise (newPromise initWorld).2).2.cells 2).result = none ∧
    DeliverWithPromise 1 (newPromise (newPromise initWorld).2).2 2 1 =
      ((newPromise (newPromise initWorld).2).2, some GoPanic.deliverPending) ∧
    (DeliverWithPromise 2 (newPromise (newPromise initWorld).2).2 2 0).2 = none ∧
    ((DeliverWithPromise 2 (newPromise (newPromise initWorld).2).2 2 0).1.cells 2).RawResult =
      ((newPromise (newPromise initWorld).2).2.cells 0).RawResult ∧
    ((DeliverWithPromise 2 (newPromise (newPromise initWorld).2).2 2 0).1.cells 2).IsCanceled =
      ((newPromise (newPromise initWorld).2).2.cells 0).IsCanceled := by
  have h := C5_deliver_from 0 (newPromise (newPromise initWorld).2).2 2 1 2 0
    (GoVal.boolV true) (by decide) (by decide) (by decide)
  exact ⟨by decide, by decide, by decide, h.1, h.2.1, h.2.2.1, h.2.2.2.2.2.2.2⟩

end GoPromise

namespace GoPromise

/-- C6: registering a success handler on a cell already resolved as success
invokes the handler exactly once, synchronously within the registration call,
with the stored success payload (`Result()`) as argument — exactly one
invocation event is appended — and the handler is not appended to any stored
handler list (every cell, including this one, is unchanged), so no later
dispatch can invoke it again. -/
theorem C6_late_success_registration (fuel : Nat) (w : World) (pid : Nat) (h : Handler)
    (hS : (w.cells pid).IsSuccess = true) :
    Success (fuel + 1) w pid (HandlerCode.user h) =
      (w.log (Event.successCall h.id (w.cells pid).Result),
       if h.panics then some (GoPanic.handlerPanic h.id) else none) ∧
    (Success (fuel + 1) w pid (HandlerCode.user h)).1.cells = w.cells ∧
    (Success (fuel + 1) w pid (HandlerCode.user h)).1.events =
      w.events ++ [Event.successCall h.id (w.cells pid).Result] := by
  have key : Success (fuel + 1) w pid (HandlerCode.user h) =
      (w.log (Event.successCall h.id (w.cells pid).Result),
       if h.panics then some (GoPanic.handlerPanic h.id) else none) := by
    unfold Success
    simp only [hS, if_true]
    rw [exec_succ]
    simp only [execF, userEvent]
    by_cases hp : h.panics <;> simp [hp]
  refine ⟨key, ?_, ?_⟩ <;> rw [key] <;> rfl

/-- Witness for C6: late registration on the resolved singleton cell. -/
theorem C6_late_success_registration_witness :
    (initWorld.cells 0).IsSuccess = true ∧
    Success 1 initWorld 0 (HandlerCode.user ⟨7, false⟩) =
      (initWorld.log (Event.successCall 7 (initWorld.cells 0).Result), none) ∧
    (Success 1 initWorld 0 (HandlerCode.user ⟨7, false⟩)).1.cells = initWorld.cells := by
  have h := C6_late_success_registration 0 initWorld 0 ⟨7, false⟩ (by decide)
  exact ⟨by decide, h.1, h.2.1⟩

/-- C8: delivering nil to a pending cell resolves it as an empty success that
is distinguishable from the unresolved state: the slot holds the explicit
`nilResult` sentinel (not `none`), the predicates report a delivered success,
and `Result()` / `RawResult()` translate the sentinel back to nil. -/
theorem C8_deliver_nil_empty_success (fuel : Nat) (w : World) (pid : Nat)
    (hp : (w.cells pid).result = none) :
    (Deliver (fuel + 1) w pid GoVal.nil).2 = none ∧
    ((Deliver (fuel + 1) w pid GoVal.nil).1.cells pid).result = some GoVal.nilResultV ∧
    ((Deliver (fuel + 1) w pid GoVal.nil).1.cells pid).result ≠ none ∧
    ((Deliver (fuel + 1) w pid GoVal.nil).1.cells pid).IsDelivered = true ∧
    ((Deliver (fuel + 1) w pid GoVal.nil).1.cells pid).IsSuccess = true ∧
    ((Deliver (fuel + 1) w pid GoVal.nil).1.cells pid).IsPending = false ∧
    ((Deliver (fuel + 1) w pid GoVal.nil).1.cells pid).IsFailed = false ∧
    ((Deliver (fuel + 1) w pid GoVal.nil).1.cells pid).Result = GoVal.nil ∧
    ((Deliver (fuel + 1) w pid GoVal.nil).1.cells pid).RawResult = GoVal.nil := by
  have h2 : (w.cells pid).result.isSome = false := by simp [hp]
  have hstep : Deliver (fuel + 1) w pid GoVal.nil =
      exec fuel (w.setCell pid { w.cells pid with result := some GoVal.nilResultV })
        (Call.notifyC pid) := by
    unfold Deliver
    rw [exec_succ]
    simp only [execF, h2, Bool.false_eq_true, if_false]
    rfl
  have hslot : ((Deliver (fuel + 1) w pid GoVal.nil).1.cells pid).result =
      some GoVal.nilResultV := by
    rw [hstep]
    apply exec_mono
    simp
  refine ⟨?_, hslot, ?_, ?_, ?_, ?_, ?_, ?_, ?_⟩
  · rw [hstep]
    exact notify_no_panic fuel _ pid
  · simp [hslot]
  · simp [PromiseState.IsDelivered, hslot]
  · simp [PromiseState.IsSuccess, hslot]
  · simp [PromiseState.IsPending, PromiseState.IsDelivered, hslot]
  · simp [PromiseState.IsFailed, PromiseState.Error, hslot]
  · simp [PromiseState.Result, hslot]
  · simp [PromiseState.RawResult, hslot]

/-- Witness for C8: deliver nil to a fresh pending cell. -/
theorem C8_deliver_nil_empty_success_witness :
    ((newPromise initWorld).2.cells 1).result = none ∧
    ((Deliver 1 (newPromise initWorld).2 1 GoVal.nil).1.cells 1).result = some GoVal.nilResultV ∧
    ((Deliver 1 (newPromise initWorld).2 1 GoVal.nil).1.cells 1).IsSuccess = true ∧
    ((Deliver 1 (newPromise initWorld).2 1 GoVal.nil).1.cells 1).Result = GoVal.nil := by
  have h := C8_deliver_nil_empty_success 0 (newPromise initWorld).2 1 (by decide)
  exact ⟨by decide, h.2.1, h.2.2.2.2.1, h.2.2.2.2.2.2.2.1⟩

end GoPromise

namespace GoPromise

/-- C9: outcome classification is by the dynamic type of the stored value,
not by the delivery method: delivering an error value through
`SucceedWithResult` (or `Deliver`) resolves a pending cell as FAILED — the
predicates report failure, `Error()` returns the value and `Result()` nil. -/
theorem C9_dynamic_type_classification (fuel : Nat) (w : World) (pid : Nat) (e : GoError)
    (hp : (w.cells pid).result = none) :
    (SucceedWithResult (fuel + 1) w pid (GoVal.errV e)).2 = none ∧
    ((SucceedWithResult (fuel + 1) w pid (GoVal.errV e)).1.cells pid).result =
      some (GoVal.errV e) ∧
    ((SucceedWithResult (fuel + 1) w pid (GoVal.errV e)).1.cells pid).IsSuccess = false ∧
    ((SucceedWithResult (fuel + 1) w pid (GoVal.errV e)).1.cells pid).IsFailed = true ∧
    ((SucceedWithResult (fuel + 1) w pid (GoVal.errV e)).1.cells pid).IsError = true ∧
    ((SucceedWithResult (fuel + 1) w pid (GoVal.errV e)).1.cells pid).Error = some e ∧
    ((SucceedWithResult (fuel + 1) w pid (GoVal.errV e)).1.cells pid).Result = GoVal.nil ∧
    Deliver (fuel + 1) w pid (GoVal.errV e) = SucceedWithResult (fuel + 1) w pid (GoVal.errV e) := by
  have h2 : (w.cells pid).result.isSome = false := by simp [hp]
  have hstep : SucceedWithResult (fuel + 1) w pid (GoVal.errV e) =
      exec fuel (w.setCell pid { w.cells pid with result := some (GoVal.errV e) })
        (Call.notifyC pid) := by
    unfold SucceedWithResult
    rw [exec_succ]
    simp only [execF, h2, Bool.false_eq_true, if_false]
    rfl
  have hslot : ((SucceedWithResult (fuel + 1) w pid (GoVal.errV e)).1.cells pid).result =
      some (GoVal.errV e) := by
    rw [hstep]
    apply exec_mono
    simp
  refine ⟨?_, hslot, ?_, ?_, ?_, ?_, ?_, rfl⟩
  · rw [hstep]
    exact notify_no_panic fuel _ pid
  · simp [PromiseState.IsSuccess, hslot]
  · simp [PromiseState.IsFailed, PromiseState.Error, hslot]
  · simp [PromiseState.IsError, PromiseState.IsFailed, PromiseState.Error, hslot]
  · simp [PromiseState.Error, hslot]
  · simp [PromiseState.Result, hslot]

/-- Witness for C9: deliver a user error via SucceedWithResult to a fresh cell. -/
theorem C9_dynamic_type_classification_witness :
    ((newPromise initWorld).2.cells 1).result = none ∧
    ((SucceedWithResult 1 (newPromise initWorld).2 1 (GoVal.errV (GoError.userErr 4))).1.cells 1).IsSuccess = false ∧
    ((SucceedWithResult 1 (newPromise initWorld).2 1 (GoVal.errV (GoError.userErr 4))).1.cells 1).IsFailed = true ∧
    ((SucceedWithResult 1 (newPromise initWorld).2 1 (GoVal.errV (GoError.userErr 4))).1.cells 1).Error = some (GoError.userErr 4) := by
  have h := C9_dynamic_type_classification 0 (newPromise initWorld).2 1 (GoError.userErr 4) (by decide)
  exact ⟨by decide, h.2.2.1, h.2.2.2.1, h.2.2.2.2.2.1⟩

/-- C10: synchronous invocation on registration after resolution is NOT
fault-isolated: unlike dispatch (which wraps every call in a recover), the
registration methods `Success`, `Catch`, `Canceled` and `Always` call the
handler directly, so a panicking handler registered after resolution
propagates its panic to the caller of the registration method. -/
theorem C10_late_registration_panic_propagates (fuel : Nat)
    (w1 w2 w3 w4 : World) (p1 p2 p3 p4 : Nat) (h : Handler)
    (hpanics : h.panics = true)
    (h1 : (w1.cells p1).IsSuccess = true)
    (h2 : (w2.cells p2).IsError = true)
    (h3 : (w3.cells p3).IsCanceled = true)
    (h4 : (w4.cells p4).IsDelivered = true) :
    (Success (fuel + 1) w1 p1 (HandlerCode.user h)).2 = some (GoPanic.handlerPanic h.id) ∧
    (Catch (fuel + 1) w2 p2 (HandlerCode.user h)).2 = some (GoPanic.handlerPanic h.id) ∧
    (Canceled (fuel + 1) w3 p3 (HandlerCode.user h)).2 = some (GoPanic.handlerPanic h.id) ∧
    (Always (fuel + 2) w4 p4 (HandlerCode.user h)).2 = some (GoPanic.handlerPanic h.id) := by
  refine ⟨?_, ?_, ?_, ?_⟩
  · unfold Success
    simp only [h1, if_true]
    rw [exec_succ]
    simp [execF, hpanics]
  · unfold Catch
    simp only [h2, if_true]
    rw [exec_succ]
    simp [execF, hpanics]
  · unfold Canceled
    simp only [h3, if_true]
    rw [exec_succ]
    simp [execF, hpanics]
  · unfold Always
    rw [show fuel + 2 = (fuel + 1) + 1 from rfl, exec_succ]
    simp only [execF, h4, if_true]
    rw [exec_succ]
    simp [execF, hpanics]

/-- Witness for C10: a panicking handler registered on a succeeded, a failed,
a canceled and a delivered cell. -/
theorem C10_late_registration_panic_propagates_witness :
    (initWorld.cells 0).IsSuccess = true ∧
    (((Fail 2 (newPromise initWorld).2 1 (some (GoError.userErr 0))).1.cells 1).IsError = true) ∧
    (((Cancel 2 (newPromise initWorld).2 1).1.cells 1).IsCanceled = true) ∧
    (initWorld.cells 0).IsDelivered = true ∧
    (Success 1 initWorld 0 (HandlerCode.user ⟨9, true⟩)).2 = some (GoPanic.handlerPanic 9) ∧
    (Catch 1 (Fail 2 (newPromise initWorld).2 1 (some (GoError.userErr 0))).1 1
      (HandlerCode.user ⟨9, true⟩)).2 = some (GoPanic.handlerPanic 9) ∧
    (Canceled 1 (Cancel 2 (newPromise initWorld).2 1).1 1
      (HandlerCode.user ⟨9, true⟩)).2 = some (GoPanic.handlerPanic 9) ∧
    (Always 2 initWorld 0 (HandlerCode.user ⟨9, true⟩)).2 = some (GoPanic.handlerPanic 9) := by
  have h := C10_late_registration_panic_propagates 0 initWorld
    (Fail 2 (newPromise initWorld).2 1 (some (GoError.userErr 0))).1
    (Cancel 2 (newPromise initWorld).2 1).1 initWorld 0 1 1 0 ⟨9, true⟩
    rfl (by decide) (by decide) (by decide) (by decide)
  exact ⟨by decide, by decide, by decide, by decide, h.1, h.2.1, h.2.2.1, h.2.2.2⟩

end GoPromise

namespace GoPromise

/-- One user handler invocation: log the invocation event and raise the panic
when the handler faults. -/
theorem runHandler_user (fuel : Nat) (w : World) (h : Handler) (arg : HandlerArg) :
    exec (fuel + 1) w (Call.runHandlerC (HandlerCode.user h) arg) =
      (w.log (userEvent h arg),
       if h.panics then some (GoPanic.handlerPanic h.id) else none) := by
  rw [exec_succ]
  simp only [execF]
  by_cases hp : h.panics <;> simp [hp]

/-- Dispatch over a slice of user handlers: every handler is invoked exactly
once, in registration order, with faults recovered into diagnostic events;
no panic escapes and no cell or countdown is modified. -/
theorem runList_user : ∀ (hs : List Handler) (fuel : Nat) (w : World) (arg : HandlerArg),
    hs.length < fuel →
    (exec fuel w (Call.runListC (hs.map HandlerCode.user) arg)).2 = none ∧
    (exec fuel w (Call.runListC (hs.map HandlerCode.user) arg)).1.cells = w.cells ∧
    (exec fuel w (Call.runListC (hs.map HandlerCode.user) arg)).1.ctrs = w.ctrs ∧
    (exec fuel w (Call.runListC (hs.map HandlerCode.user) arg)).1.events =
      w.events ++ userTrace hs arg := by
  intro hs
  induction hs with
  | nil =>
    intro fuel w arg hlen
    obtain ⟨f, rfl⟩ : ∃ f, fuel = f + 1 := ⟨fuel - 1, by omega⟩
    rw [exec_succ]
    simp [execF, userTrace]
  | cons h rest ih =>
    intro fuel w arg hlen
    obtain ⟨f, rfl⟩ : ∃ f, fuel = f + 1 := ⟨fuel - 1, by omega⟩
    have hrest : rest.length < f := by simp at hlen; omega
    obtain ⟨f2, rfl⟩ : ∃ f2, f = f2 + 1 := ⟨f - 1, by omega⟩
    rw [exec_succ]
    simp only [execF, List.map_cons]
    rw [runHandler_user]
    by_cases hp : h.panics
    · simp only [hp, if_true, Option.isSome_some]
      obtain ⟨ha, hb, hc, hd⟩ := ih (f2 + 1) (((w.log (userEvent h arg)).log Event.panicLog)) arg hrest
      refine ⟨by simpa using ha, by simpa using hb, by simpa using hc, ?_⟩
      rw [hd]
      simp [userTrace, hp]
    · simp only [hp, Bool.false_eq_true, if_false, Option.isSome_none]
      obtain ⟨ha, hb, hc, hd⟩ := ih (f2 + 1) (w.log (userEvent h arg)) arg hrest
      refine ⟨by simpa using ha, by simpa using hb, by simpa using hc, ?_⟩
      rw [hd]
      simp [userTrace, hp]

end GoPromise

namespace GoPromise

/-- A cell whose slot holds a non-error value reports success. -/
theorem IsSuccess_of_some (p : PromiseState) (v : GoVal) (hres : p.result = some v)
    (hne : ∀ e, v ≠ GoVal.errV e) : p.IsSuccess = true := by
  unfold PromiseState.IsSuccess
  rw [hres]
  cases v <;> first | rfl | exact absurd rfl (hne _)

/-- A cell whose slot holds a plain payload reports that payload. -/
theorem Result_of_some (p : PromiseState) (v : GoVal) (hres : p.result = some v)
    (hne : ∀ e, v ≠ GoVal.errV e) (hsent : v ≠ GoVal.nilResultV) : p.Result = v := by
  unfold PromiseState.Result
  rw [hres]
  cases v <;> first | rfl | exact absurd rfl (hne _) | exact absurd rfl hsent

/-- C4: dispatch on resolution is fault-isolated per handler: with arbitrary
slices of user success- and always-handlers registered before resolution
(each possibly panicking), delivering a success invokes every handler of both
categories exactly once, in registration order, with recovered panics logged
as diagnostics; no panic reaches the delivering caller. -/
theorem C4_dispatch_fault_isolation (fuel : Nat) (w : World) (pid : Nat)
    (hs as : List Handler) (cs ks : List HandlerCode) (v : GoVal)
    (hcell : w.cells pid =
      { result := none, successHandlers := hs.map HandlerCode.user, catchHandlers := cs,
        alwaysHandlers := as.map HandlerCode.user, canceledHandlers := ks })
    (hverr : ∀ e, v ≠ GoVal.errV e) (hvnil : v ≠ GoVal.nil) (hvsent : v ≠ GoVal.nilResultV)
    (hfuel : hs.length + as.length + 3 ≤ fuel) :
    (SucceedWithResult fuel w pid v).2 = none ∧
    (SucceedWithResult fuel w pid v).1.events =
      w.events ++ userTrace hs (HandlerArg.success v) ++ userTrace as (HandlerArg.always pid) := by
  obtain ⟨f1, rfl⟩ : ∃ f1, fuel = f1 + 1 := ⟨fuel - 1, by omega⟩
  obtain ⟨f2, rfl⟩ : ∃ f2, f1 = f2 + 1 := ⟨f1 - 1, by omega⟩
  have hdeliv : (w.cells pid).result.isSome = false := by rw [hcell]; rfl
  set st2 : PromiseState :=
    { result := some v, successHandlers := hs.map HandlerCode.user, catchHandlers := cs,
      alwaysHandlers := as.map HandlerCode.user, canceledHandlers := ks } with hst2
  have hstep : SucceedWithResult (f2 + 1 + 1) w pid v =
      exec (f2 + 1) (w.setCell pid st2) (Call.notifyC pid) := by
    unfold SucceedWithResult
    rw [exec_succ]
    simp only [execF, hdeliv, Bool.false_eq_true, if_false, if_neg hvnil]
    rw [hcell, hst2]
  set W2 := w.setCell pid st2 with hW2
  have hcell2 : W2.cells pid = st2 := by simp [hW2]
  have hS : (W2.cells pid).IsSuccess = true :=
    IsSuccess_of_some _ v (by rw [hcell2, hst2]) hverr
  have hR : (W2.cells pid).Result = v :=
    Result_of_some _ v (by rw [hcell2, hst2]) hverr hvsent
  have hsucc : (W2.cells pid).successHandlers = hs.map HandlerCode.user := by
    rw [hcell2, hst2]
  rw [hstep, exec_succ]
  simp only [execF, hS, if_true, hR, hsucc]
  have hlen1 : hs.length < f2 := by omega
  have hlen2 : as.length < f2 := by omega
  obtain ⟨ha1, hb1, hc1, hd1⟩ :=
    runList_user hs f2 W2 (HandlerArg.success v) hlen1
  set W3 := (exec f2 W2 (Call.runListC (hs.map HandlerCode.user) (HandlerArg.success v))).1
  have halways : (W3.cells pid).alwaysHandlers = as.map HandlerCode.user := by
    rw [hb1, hcell2, hst2]
  rw [halways]
  obtain ⟨ha2, hb2, hc2, hd2⟩ :=
    runList_user as f2 W3 (HandlerArg.always pid) hlen2
  refine ⟨by trivial, ?_⟩
  rw [hd2, hd1]
  have hev : W2.events = w.events := by simp [hW2]
  rw [hev]

/-- Witness for C4: two success handlers, the first panicking — the second is
still invoked exactly once, and the delivery call returns without panic. -/
theorem C4_dispatch_fault_isolation_witness :
    ((newPromise initWorld).2.setCell 1
        { result := none,
          successHandlers := [Handler.mk 1 true, Handler.mk 2 false].map HandlerCode.user,
          catchHandlers := [],
          alwaysHandlers := ([] : List Handler).map HandlerCode.user,
          canceledHandlers := [] }).cells 1 =
      { result := none,
        successHandlers := [Handler.mk 1 true, Handler.mk 2 false].map HandlerCode.user,
        catchHandlers := [],
        alwaysHandlers := ([] : List Handler).map HandlerCode.user,
        canceledHandlers := [] } ∧
    (∀ e, GoVal.intV 5 ≠ GoVal.errV e) ∧
    (SucceedWithResult 5
      ((newPromise initWorld).2.setCell 1
        { result := none,
          successHandlers := [Handler.mk 1 true, Handler.mk 2 false].map HandlerCode.user,
          catchHandlers := [],
          alwaysHandlers := ([] : List Handler).map HandlerCode.user,
          canceledHandlers := [] }) 1 (GoVal.intV 5)).2 = none ∧
    (SucceedWithResult 5
      ((newPromise initWorld).2.setCell 1
        { result := none,
          successHandlers := [Handler.mk 1 true, Handler.mk 2 false].map HandlerCode.user,
          catchHandlers := [],
          alwaysHandlers := ([] : List Handler).map HandlerCode.user,
          canceledHandlers := [] }) 1 (GoVal.intV 5)).1.events =
      [Event.successCall 1 (GoVal.intV 5), Event.panicLog, Event.successCall 2 (GoVal.intV 5)] := by
  have h := C4_dispatch_fault_isolation 5
    ((newPromise initWorld).2.setCell 1
      { result := none,
        successHandlers := [Handler.mk 1 true, Handler.mk 2 false].map HandlerCode.user,
        catchHandlers := [],
        alwaysHandlers := ([] : List Handler).map HandlerCode.user,
        canceledHandlers := [] }) 1
    [Handler.mk 1 true, Handler.mk 2 false] [] [] [] (GoVal.intV 5)
    (by decide) (fun e => by simp) (by simp) (by simp) (by decide)
  refine ⟨by decide, fun e => by simp, h.1, ?_⟩
  rw [h.2]
  decide

end GoPromise

namespace GoPromise

/-- Running the dispatcher loop over an empty handler slice is a no-op. -/
theorem runList_nil (fuel : Nat) (w : World) (arg : HandlerArg) :
    exec fuel w (Call.runListC [] arg) = (w, none) := by
  cases fuel with
  | zero => rfl
  | succ f => rfl

/-- Notifying a cell that has no registered handlers changes nothing. -/
theorem notify_empty (fuel : Nat) (w : World) (pid : Nat)
    (hs : (w.cells pid).successHandlers = [])
    (hc : (w.cells pid).catchHandlers = [])
    (ha : (w.cells pid).alwaysHandlers = [])
    (hk : (w.cells pid).canceledHandlers = []) :
    exec (fuel + 1) w (Call.notifyC pid) = (w, none) := by
  rw [exec_succ]
  simp only [execF, hs, hc, runList_nil]
  by_cases hS : (w.cells pid).IsSuccess
  · simp [hS, runList_nil, ha]
  · by_cases hC : (w.cells pid).Error = some GoError.promiseCanceled <;>
      simp [hS, hC, runList_nil, ha, hk]

/-- Transplanting a failed resolved source onto a fresh empty bridge stores
the error on the bridge and dispatches to nobody. -/
theorem dwp_to_fresh (fuel : Nat) (w2 : World) (bid src : Nat) (e : GoError)
    (hsrc2 : (w2.cells src).result = some (GoVal.errV e))
    (hbid : w2.cells bid = emptyPromise) :
    exec (fuel + 4) w2 (Call.deliverWithPromiseC bid src) =
      (w2.setCell bid { emptyPromise with result := some (GoVal.errV e) }, none) := by
  rw [show fuel + 4 = (fuel + 3) + 1 from rfl, exec_succ]
  simp only [execF]
  have h1 : (w2.cells src).IsPending = false := by
    simp [PromiseState.IsPending, PromiseState.IsDelivered, hsrc2]
  simp only [h1, Bool.false_eq_true, if_false]
  have h2 : (w2.cells src).RawResult = GoVal.errV e := by
    simp [PromiseState.RawResult, hsrc2]
  rw [h2, show fuel + 3 = (fuel + 2) + 1 from rfl, exec_succ]
  simp only [execF, hbid]
  have h3 : emptyPromise.result.isSome = false := rfl
  simp only [h3, Bool.false_eq_true, if_false]
  have h4 : (GoVal.errV e = GoVal.nil) = False := by simp
  simp only [h4, if_false]
  apply notify_empty
  all_goals simp [emptyPromise]

/-- The Thenf always-handler on a failed source forwards the failure to the
fresh bridge without consulting the factory. -/
theorem run_thenf_failed (w1 : World) (src bid : Nat) (fac : FactoryCode) (e : GoError)
    (hsrc1 : (w1.cells src).result = some (GoVal.errV e))
    (hbid : w1.cells bid = emptyPromise) :
    exec 8 w1 (Call.runHandlerC (HandlerCode.thenfCode fac bid) (HandlerArg.always src)) =
      (w1.setCell bid { emptyPromise with result := some (GoVal.errV e) }, none) := by
  rw [show (8 : Nat) = 7 + 1 from rfl, exec_succ]
  simp only [execF]
  have hS : (w1.cells src).IsSuccess = false := by simp [PromiseState.IsSuccess, hsrc1]
  simp only [hS, Bool.false_eq_true, if_false]
  exact dwp_to_fresh 3 w1 bid src e hsrc1 hbid

/-- Same for the ThenWithResult always-handler. -/
theorem run_thenwr_failed (w1 : World) (src bid : Nat) (fac : FactoryCode) (e : GoError)
    (hsrc1 : (w1.cells src).result = some (GoVal.errV e))
    (hbid : w1.cells bid = emptyPromise) :
    exec 8 w1 (Call.runHandlerC (HandlerCode.thenWithResultCode fac bid) (HandlerArg.always src)) =
      (w1.setCell bid { emptyPromise with result := some (GoVal.errV e) }, none) := by
  rw [show (8 : Nat) = 7 + 1 from rfl, exec_succ]
  simp only [execF]
  have hS : (w1.cells src).IsSuccess = false := by simp [PromiseState.IsSuccess, hsrc1]
  simp only [hS, Bool.false_eq_true, if_false]
  exact dwp_to_fresh 3 w1 bid src e hsrc1 hbid

end GoPromise

namespace GoPromise

/-- C7: chaining off a source already resolved as failed or canceled never
invokes the continuation factory (the event trace stays exactly as it was —
factory invocations always log an event) and resolves the returned bridge
with the source's outcome verbatim: same `Error`, same raw outcome, canceled
exactly when the source was.  Stated for `Thenf`, `ThenWithResult` and
`Then`. -/
theorem C7_then_short_circuit (w : World) (src tgt : Nat) (e : GoError)
    (fac fac2 : FactoryCode)
    (hsrc : (w.cells src).result = some (GoVal.errV e))
    (hfresh : src ≠ w.nextCell) :
    ((Thenf 9 w src fac).1.2 = none ∧
     (Thenf 9 w src fac).1.1.events = w.events ∧
     ((Thenf 9 w src fac).1.1.cells (Thenf 9 w src fac).2).Error = some e ∧
     ((Thenf 9 w src fac).1.1.cells (Thenf 9 w src fac).2).IsCanceled = (w.cells src).IsCanceled ∧
     ((Thenf 9 w src fac).1.1.cells (Thenf 9 w src fac).2).RawResult = (w.cells src).RawResult ∧
     ((Thenf 9 w src fac).1.1.cells (Thenf 9 w src fac).2).IsSuccess = false) ∧
    ((ThenWithResult 9 w src fac2).1.2 = none ∧
     (ThenWithResult 9 w src fac2).1.1.events = w.events ∧
     ((ThenWithResult 9 w src fac2).1.1.cells (ThenWithResult 9 w src fac2).2).Error = some e ∧
     ((ThenWithResult 9 w src fac2).1.1.cells (ThenWithResult 9 w src fac2).2).IsCanceled = (w.cells src).IsCanceled ∧
     ((ThenWithResult 9 w src fac2).1.1.cells (ThenWithResult 9 w src fac2).2).RawResult = (w.cells src).RawResult ∧
     ((ThenWithResult 9 w src fac2).1.1.cells (ThenWithResult 9 w src fac2).2).IsSuccess = false) ∧
    ((Then 9 w src tgt).1.2 = none ∧
     (Then 9 w src tgt).1.1.events = w.events ∧
     ((Then 9 w src tgt).1.1.cells (Then 9 w src tgt).2).Error = some e ∧
     ((Then 9 w src tgt).1.1.cells (Then 9 w src tgt).2).IsCanceled = (w.cells src).IsCanceled ∧
     ((Then 9 w src tgt).1.1.cells (Then 9 w src tgt).2).RawResult = (w.cells src).RawResult ∧
     ((Then 9 w src tgt).1.1.cells (Then 9 w src tgt).2).IsSuccess = false) := by
  set bid := w.nextCell with hbid_def
  set w1 := (newPromise w).2 with hw1_def
  have hw1src : w1.cells src = w.cells src := by
    simp [hw1_def, newPromise, hfresh]
  have hw1bid : w1.cells bid = emptyPromise := by
    simp [hw1_def, newPromise, hbid_def]
  have hsrc1 : (w1.cells src).result = some (GoVal.errV e) := by rw [hw1src]; exact hsrc
  have hD : (w1.cells src).IsDelivered = true := by
    simp [PromiseState.IsDelivered, hsrc1]
  set WT := w1.setCell bid { emptyPromise with result := some (GoVal.errV e) } with hWT_def
  have hreg : ∀ code : HandlerCode,
      exec 9 w1 (Call.alwaysRegC src code) =
        exec 8 w1 (Call.runHandlerC code (HandlerArg.always src)) := by
    intro code
    rw [show (9 : Nat) = 8 + 1 from rfl, exec_succ]
    simp only [execF, hD, if_true]
  have hThenf : ∀ fc : FactoryCode, Thenf 9 w src fc = ((WT, none), bid) := by
    intro fc
    show (exec 9 w1 (Call.alwaysRegC src (HandlerCode.thenfCode fc bid)), bid) = ((WT, none), bid)
    rw [hreg, run_thenf_failed w1 src bid fc e hsrc1 hw1bid]
  have hThenwr : ThenWithResult 9 w src fac2 = ((WT, none), bid) := by
    show (exec 9 w1 (Call.alwaysRegC src (HandlerCode.thenWithResultCode fac2 bid)), bid) = ((WT, none), bid)
    rw [hreg, run_thenwr_failed w1 src bid fac2 e hsrc1 hw1bid]
  have hThen : Then 9 w src tgt = ((WT, none), bid) := hThenf (FactoryCode.const tgt)
  have hWTbid : WT.cells bid = { emptyPromise with result := some (GoVal.errV e) } := by
    simp [hWT_def]
  have hWTev : WT.events = w.events := by
    simp [hWT_def, hw1_def, newPromise, World.setCell]
  refine ⟨?_, ?_, ?_⟩ <;>
    simp only [hThenf, hThenwr, hThen, hWTbid, hWTev] <;>
    refine ⟨by trivial, by trivial, by rfl, ?_, ?_, by rfl⟩ <;>
    first
      | simp [PromiseState.IsCanceled, PromiseState.Error, hsrc]
      | simp [PromiseState.RawResult, hsrc]

/-- Witness for C7: a source failed with a user error, and one canceled. -/
theorem C7_then_short_circuit_witness :
    (((Fail 2 (newPromise initWorld).2 1 (some (GoError.userErr 5))).1.cells 1).result =
      some (GoVal.errV (GoError.userErr 5))) ∧
    (1 ≠ (Fail 2 (newPromise initWorld).2 1 (some (GoError.userErr 5))).1.nextCell) ∧
    ((Thenf 9 (Fail 2 (newPromise initWorld).2 1 (some (GoError.userErr 5))).1 1
        (FactoryCode.const 0)).1.1.cells
      (Thenf 9 (Fail 2 (newPromise initWorld).2 1 (some (GoError.userErr 5))).1 1
        (FactoryCode.const 0)).2).Error = some (GoError.userErr 5) ∧
    (Thenf 9 (Fail 2 (newPromise initWorld).2 1 (some (GoError.userErr 5))).1 1
        (FactoryCode.const 0)).1.1.events =
      (Fail 2 (newPromise initWorld).2 1 (some (GoError.userErr 5))).1.events ∧
    (((Cancel 2 (newPromise initWorld).2 1).1.cells 1).result =
      some (GoVal.errV GoError.promiseCanceled)) ∧
    ((Then 9 (Cancel 2 (newPromise initWorld).2 1).1 1 0).1.1.cells
      (Then 9 (Cancel 2 (newPromise initWorld).2 1).1 1 0).2).IsCanceled =
      ((Cancel 2 (newPromise initWorld).2 1).1.cells 1).IsCanceled := by
  have h1 := C7_then_short_circuit (Fail 2 (newPromise initWorld).2 1 (some (GoError.userErr 5))).1
    1 0 (GoError.userErr 5) (FactoryCode.const 0) (FactoryCode.const 0) (by decide) (by decide)
  have h2 := C7_then_short_circuit (Cancel 2 (newPromise initWorld).2 1).1
    1 0 GoError.promiseCanceled (FactoryCode.const 0) (FactoryCode.const 0) (by decide) (by decide)
  exact ⟨by decide, by decide, h1.1.2.2.1, h1.1.2.1, by decide, h2.2.2.2.2.2.1⟩

end GoPromise

namespace GoPromise

/-- Registering the countdown handler on a pending empty source appends it. -/
theorem always_reg_pending (w : World) (s bid ctr : Nat)
    (hcell : w.cells s = emptyPromise) :
    Always 9 w s (HandlerCode.allStep bid ctr) = (w.setCell s (regCell bid ctr), none) := by
  unfold Always
  rw [show (9 : Nat) = 8 + 1 from rfl, exec_succ]
  simp only [execF]
  have hD : (w.cells s).IsDelivered = false := by
    simp [PromiseState.IsDelivered, hcell, emptyPromise]
  simp only [hD, Bool.false_eq_true, if_false]
  rw [hcell]
  rfl

/-- The registration loop of `all` over distinct pending empty sources
registers the countdown handler on every source and touches nothing else. -/
theorem allLoop_reg (bid ctr : Nat) : ∀ (rest : List Nat) (w : World),
    rest.Nodup → (∀ s ∈ rest, w.cells s = emptyPromise) → bid ∉ rest →
    (w.cells bid).result = none →
    (allLoop 9 bid ctr w rest).2 = none ∧
    (∀ i, i ∉ rest → (allLoop 9 bid ctr w rest).1.cells i = w.cells i) ∧
    (∀ s ∈ rest, (allLoop 9 bid ctr w rest).1.cells s = regCell bid ctr) ∧
    (allLoop 9 bid ctr w rest).1.ctrs = w.ctrs := by
  intro rest
  induction rest with
  | nil =>
    intro w hnd hcells hbid hpend
    exact ⟨rfl, fun i _ => rfl, fun s hs => absurd hs (List.not_mem_nil s), rfl⟩
  | cons s rest ih =>
    intro w hnd hcells hbid hpend
    have hcellS : w.cells s = emptyPromise := hcells s (List.mem_cons_self s rest)
    have hsbid : s ≠ bid := fun h => hbid (h ▸ List.mem_cons_self s rest)
    have hbs : ¬ bid = s := fun h => hsbid h.symm
    have hloop : allLoop 9 bid ctr w (s :: rest) =
        allLoop 9 bid ctr (w.setCell s (regCell bid ctr)) rest := by
      conv_lhs => rw [allLoop]
      rw [always_reg_pending w s bid ctr hcellS]
      simp [hbs, PromiseState.IsDelivered, hpend]
    have hbidrest : bid ∉ rest := fun h => hbid (List.mem_cons_of_mem s h)
    obtain ⟨ha, hb, hc, hd⟩ := ih (w.setCell s (regCell bid ctr))
      (List.Nodup.of_cons hnd)
      (by
        intro t ht
        have hts : t ≠ s := fun h2 => (List.nodup_cons.mp hnd).1 (h2 ▸ ht)
        simp [hts, hcells t (List.mem_cons_of_mem s ht)])
      hbidrest
      (by simp [Ne.symm hsbid, hpend])
    rw [hloop]
    refine ⟨ha, ?_, ?_, by rw [hd]; simp⟩
    · intro i hi
      have his : i ≠ s := fun h2 => hi (h2 ▸ List.mem_cons_self s rest)
      have hirest : i ∉ rest := fun h2 => hi (List.mem_cons_of_mem s h2)
      rw [hb i hirest]
      simp [his]
    · intro t ht
      rcases List.mem_cons.mp ht with h2 | h2
      · subst h2
        have htrest : t ∉ rest := (List.nodup_cons.mp hnd).1
        rw [hb t htrest]
        simp
      · exact hc t h2

/-- Setting up `all` over distinct fresh pending sources yields the
join-all scenario with nothing delivered yet. -/
theorem all_setup (w : World) (srcs : List Nat)
    (hnd : srcs.Nodup) (hcells : ∀ s ∈ srcs, w.cells s = emptyPromise)
    (hfresh : ∀ s ∈ srcs, s ≠ w.nextCell) (hpos : 0 < srcs.length) :
    (all 9 w srcs).1.2 = none ∧
    (all 9 w srcs).2 = w.nextCell ∧
    AllScenario (all 9 w srcs).1.1 w.nextCell w.nextCtr srcs [] := by
  have h0 : ¬ srcs.length = 0 := by omega
  have hbidnotin : w.nextCell ∉ srcs := fun h => hfresh _ h rfl
  set W2 : World :=
    { cells := fun i => if i = w.nextCell then emptyPromise else w.cells i,
      ctrs := fun i => if i = w.nextCtr then (srcs.length : Int) else w.ctrs i,
      nextCell := w.nextCell + 1, nextCtr := w.nextCtr + 1,
      events := w.events } with hW2
  have hall : all 9 w srcs = (allLoop 9 w.nextCell w.nextCtr W2 srcs, w.nextCell) := by
    unfold all
    rw [if_neg h0]
    rfl
  have hW2cells : ∀ s ∈ srcs, W2.cells s = emptyPromise := by
    intro s hs
    have : s ≠ w.nextCell := hfresh s hs
    simp [hW2, this, hcells s hs]
  have hW2bid : (W2.cells w.nextCell).result = none := by simp [hW2, emptyPromise]
  obtain ⟨ha, hb, hc, hd⟩ := allLoop_reg w.nextCell w.nextCtr srcs W2 hnd hW2cells hbidnotin hW2bid
  rw [hall]
  refine ⟨ha, rfl, ?_⟩
  refine ⟨hnd, List.nodup_nil, by simp, hbidnotin, ?_, ?_, ?_, ?_⟩
  · rw [hb w.nextCell hbidnotin]
    simp [hW2]
  · rw [hd]
    simp [hW2]
  · simpa using hpos
  · intro s hs
    rw [hc s hs]
    simp [regCell, emptyPromise]

end GoPromise

namespace GoPromise

/-- Running the countdown handler after a source succeeded: decrement the
shared counter; on reaching zero resolve the (empty, pending) bridge. -/
theorem run_allStep_notfailed (W : World) (bid ctr s : Nat)
    (hnf : (W.cells s).IsFailed = false)
    (hbr : W.cells bid = emptyPromise) :
    exec 6 W (Call.runHandlerC (HandlerCode.allStep bid ctr) (HandlerArg.always s)) =
      (if W.ctrs ctr - 1 = 0 then
        ((W.setCtr ctr (W.ctrs ctr - 1)).setCell bid
          { emptyPromise with result := some (GoVal.boolV true) }, none)
      else (W.setCtr ctr (W.ctrs ctr - 1), none)) := by
  rw [show (6 : Nat) = 5 + 1 from rfl, exec_succ]
  simp only [execF, hnf, Bool.false_eq_true, if_false]
  by_cases hz : W.ctrs ctr - 1 = 0
  · simp only [if_pos hz]
    have hW2bid2 : (W.setCtr ctr (W.ctrs ctr - 1)).cells bid = emptyPromise := by
      simp [hbr]
    rw [show (5 : Nat) = 4 + 1 from rfl, exec_succ]
    simp only [execF, hW2bid2, emptyPromise, Option.isSome_none, Bool.false_eq_true, if_false]
    have hnotnil : (GoVal.boolV true = GoVal.nil) = False := by simp
    simp only [hnotnil, if_false]
    rw [show (4 : Nat) = 3 + 1 from rfl]
    rw [notify_empty 3]
    all_goals simp [emptyPromise]
  · simp only [if_neg hz]

/-- Succeeding one not-yet-delivered source of the join-all scenario:
store the success, run the countdown handler, and resolve the bridge
exactly when this was the last missing source. -/
theorem succeed_step_core (w : World) (bid ctr : Nat) (srcs delivered : List Nat) (s : Nat)
    (sc : AllScenario w bid ctr srcs delivered) (hs : s ∈ srcs) (hnd : s ∉ delivered) :
    Succeed 9 w s =
      (if w.ctrs ctr - 1 = 0 then
        (((w.setCell s (succCell bid ctr)).setCtr ctr (w.ctrs ctr - 1)).setCell bid
          { emptyPromise with result := some (GoVal.boolV true) }, none)
      else ((w.setCell s (succCell bid ctr)).setCtr ctr (w.ctrs ctr - 1), none)) := by
  have hcellS : w.cells s =
      { result := none, successHandlers := [], catchHandlers := [],
        alwaysHandlers := [HandlerCode.allStep bid ctr], canceledHandlers := [] } := by
    rw [sc.src_cell s hs]
    simp [hnd]
  have hsbid : s ≠ bid := fun h => sc.bid_notin (h ▸ hs)
  set W1 := w.setCell s (succCell bid ctr) with hW1
  have hW1s : W1.cells s = succCell bid ctr := by simp [hW1]
  have step1 : Succeed 9 w s = exec 8 W1 (Call.notifyC s) := by
    unfold Succeed
    rw [show (9 : Nat) = 8 + 1 from rfl, exec_succ]
    simp only [execF, hcellS]
    rfl
  have hIsS : (W1.cells s).IsSuccess = true := by
    rw [hW1s]
    rfl
  have hAl : (W1.cells s).alwaysHandlers = [HandlerCode.allStep bid ctr] := by
    rw [hW1s]
    rfl
  have hSucc : (W1.cells s).successHandlers = [] := by
    rw [hW1s]
    rfl
  have step2 : exec 8 W1 (Call.notifyC s) =
      ((exec 7 W1 (Call.runListC [HandlerCode.allStep bid ctr] (HandlerArg.always s))).1, none) := by
    rw [show (8 : Nat) = 7 + 1 from rfl, exec_succ]
    simp only [execF, hIsS, if_true, hSucc, runList_nil, hAl]
  have hnf : (W1.cells s).IsFailed = false := by
    rw [hW1s]
    rfl
  have hbr1 : W1.cells bid = emptyPromise := by
    simp [hW1, Ne.symm hsbid, sc.bridge_cell]
  have step3 : exec 7 W1 (Call.runListC [HandlerCode.allStep bid ctr] (HandlerArg.always s)) =
      (if W1.ctrs ctr - 1 = 0 then
        ((W1.setCtr ctr (W1.ctrs ctr - 1)).setCell bid
          { emptyPromise with result := some (GoVal.boolV true) }, none)
      else (W1.setCtr ctr (W1.ctrs ctr - 1), none)) := by
    rw [show (7 : Nat) = 6 + 1 from rfl, exec_succ]
    simp only [execF, run_allStep_notfailed W1 bid ctr s hnf hbr1]
    by_cases hz : W1.ctrs ctr - 1 = 0
    · rw [if_pos hz]
      simp [runList_nil]
    · rw [if_neg hz]
      simp [runList_nil]
  have hctrW1 : W1.ctrs = w.ctrs := by simp [hW1]
  rw [step1, step2, step3, hctrW1]
  by_cases hz : w.ctrs ctr - 1 = 0
  · rw [if_pos hz]
  · rw [if_neg hz]

end GoPromise

namespace GoPromise

/-- Succeeding a source when other sources are still missing keeps the
join-all scenario with one more delivered source and the bridge pending. -/
theorem succeed_step_mid (w : World) (bid ctr : Nat) (srcs delivered : List Nat) (s : Nat)
    (sc : AllScenario w bid ctr srcs delivered) (hs : s ∈ srcs) (hnd2 : s ∉ delivered)
    (hlt : delivered.length + 1 < srcs.length) :
    AllScenario (Succeed 9 w s).1 bid ctr srcs (s :: delivered) ∧ (Succeed 9 w s).2 = none := by
  have hsbid : s ≠ bid := fun h => sc.bid_notin (h ▸ hs)
  have hz : ¬ w.ctrs ctr - 1 = 0 := by
    rw [sc.ctr_val]
    have h1 := sc.del_lt
    omega
  have hcore := succeed_step_core w bid ctr srcs delivered s sc hs hnd2
  rw [if_neg hz] at hcore
  rw [hcore]
  refine ⟨⟨sc.srcs_nodup, List.nodup_cons.mpr ⟨hnd2, sc.del_nodup⟩, ?_, sc.bid_notin,
    ?_, ?_, ?_, ?_⟩, rfl⟩
  · intro t ht
    rcases List.mem_cons.mp ht with h | h
    · exact h ▸ hs
    · exact sc.del_sub t h
  · simp [Ne.symm hsbid, sc.bridge_cell]
  · rw [setCtr_ctrs]
    simp only [if_pos rfl]
    rw [sc.ctr_val]
    simp only [List.length_cons]
    push_cast
    ring
  · simpa using hlt
  · intro t ht
    by_cases hts : t = s
    · subst hts
      simp [succCell]
    · have h2 := sc.src_cell t ht
      have hmem : (t ∈ s :: delivered) = (t ∈ delivered) := by
        simp [List.mem_cons, hts]
      simp only [setCtr_cells, setCell_cells, hts, if_false, h2, hmem]

/-- Succeeding the last missing source resolves the bridge as success. -/
theorem succeed_step_last (w : World) (bid ctr : Nat) (srcs delivered : List Nat) (s : Nat)
    (sc : AllScenario w bid ctr srcs delivered) (hs : s ∈ srcs) (hnd2 : s ∉ delivered)
    (hlast : delivered.length + 1 = srcs.length) :
    ((Succeed 9 w s).1.cells bid).result = some (GoVal.boolV true) ∧
    (Succeed 9 w s).2 = none := by
  have hz : w.ctrs ctr - 1 = 0 := by
    rw [sc.ctr_val]
    omega
  have hcore := succeed_step_core w bid ctr srcs delivered s sc hs hnd2
  rw [if_pos hz] at hcore
  rw [hcore]
  simp

/-- Canceling a not-yet-delivered source of the join-all scenario forwards
the cancellation marker to the bridge. -/
theorem cancel_step (w : World) (bid ctr : Nat) (srcs delivered : List Nat) (s : Nat)
    (sc : AllScenario w bid ctr srcs delivered) (hs : s ∈ srcs) (hnd2 : s ∉ delivered) :
    ((Cancel 9 w s).1.cells bid).result = some (GoVal.errV GoError.promiseCanceled) ∧
    (Cancel 9 w s).2 = none := by
  have hcellS : w.cells s =
      { result := none, successHandlers := [], catchHandlers := [],
        alwaysHandlers := [HandlerCode.allStep bid ctr], canceledHandlers := [] } := by
    rw [sc.src_cell s hs]
    simp [hnd2]
  have hsbid : s ≠ bid := fun h => sc.bid_notin (h ▸ hs)
  set W1 := w.setCell s (cancelCell bid ctr) with hW1
  have hW1s : W1.cells s = cancelCell bid ctr := by simp [hW1]
  have step1 : Cancel 9 w s = exec 8 W1 (Call.notifyC s) := by
    unfold Cancel
    rw [show (9 : Nat) = 8 + 1 from rfl, exec_succ]
    simp only [execF, hcellS]
    rfl
  have hIsS : (W1.cells s).IsSuccess = false := by
    rw [hW1s]
    rfl
  have hErr : (W1.cells s).Error = some GoError.promiseCanceled := by
    rw [hW1s]
    rfl
  have hCatch : (W1.cells s).catchHandlers = [] := by
    rw [hW1s]
    rfl
  have hCanc : (W1.cells s).canceledHandlers = [] := by
    rw [hW1s]
    rfl
  have hAl : (W1.cells s).alwaysHandlers = [HandlerCode.allStep bid ctr] := by
    rw [hW1s]
    rfl
  have step2 : exec 8 W1 (Call.notifyC s) =
      ((exec 7 W1 (Call.runListC [HandlerCode.allStep bid ctr] (HandlerArg.always s))).1, none) := by
    rw [show (8 : Nat) = 7 + 1 from rfl, exec_succ]
    simp only [execF, hIsS, Bool.false_eq_true, if_false, hErr, hCatch, runList_nil,
      hCanc, hAl, if_pos rfl, if_true]
  have hIsF : (W1.cells s).IsFailed = true := by
    rw [hW1s]
    rfl
  have hres1 : (W1.cells s).result = some (GoVal.errV GoError.promiseCanceled) := by
    rw [hW1s]
    rfl
  have hbr1 : W1.cells bid = emptyPromise := by
    simp [hW1, Ne.symm hsbid, sc.bridge_cell]
  have hrun : exec 6 W1 (Call.runHandlerC (HandlerCode.allStep bid ctr) (HandlerArg.always s)) =
      (W1.setCell bid { emptyPromise with
        result := some (GoVal.errV GoError.promiseCanceled) }, none) := by
    rw [show (6 : Nat) = 5 + 1 from rfl, exec_succ]
    simp only [execF, hIsF, if_true]
    exact dwp_to_fresh 1 W1 bid s GoError.promiseCanceled hres1 hbr1
  have step3 : exec 7 W1 (Call.runListC [HandlerCode.allStep bid ctr] (HandlerArg.always s)) =
      (W1.setCell bid { emptyPromise with
        result := some (GoVal.errV GoError.promiseCanceled) }, none) := by
    rw [show (7 : Nat) = 6 + 1 from rfl, exec_succ]
    simp only [execF, hrun]
    simp [runList_nil]
  rw [step1, step2, step3]
  simp

end GoPromise

namespace GoPromise

/-- Folding successes over distinct missing sources preserves the join-all
scenario while sources remain missing. -/
theorem succeedSeq_mid (bid ctr : Nat) (srcs : List Nat) :
    ∀ (order : List Nat) (w : World) (delivered : List Nat),
    AllScenario w bid ctr srcs delivered → order.Nodup →
    (∀ t ∈ order, t ∈ srcs) → (∀ t ∈ order, t ∉ delivered) →
    order.length + delivered.length < srcs.length →
    AllScenario (succeedSeq 9 w order) bid ctr srcs (order.reverse ++ delivered) := by
  intro order
  induction order with
  | nil =>
    intro w delivered sc _ _ _ _
    simpa [succeedSeq] using sc
  | cons s rest ih =>
    intro w delivered sc hond hosub hodis hlen
    have hs : s ∈ srcs := hosub s (List.mem_cons_self s rest)
    have hnd2 : s ∉ delivered := hodis s (List.mem_cons_self s rest)
    have hlt : delivered.length + 1 < srcs.length := by
      simp only [List.length_cons] at hlen
      omega
    obtain ⟨sc2, _⟩ := succeed_step_mid w bid ctr srcs delivered s sc hs hnd2 hlt
    have hres := ih (Succeed 9 w s).1 (s :: delivered) sc2
      (List.Nodup.of_cons hond)
      (fun t ht => hosub t (List.mem_cons_of_mem s ht))
      (by
        intro t ht
        have hts : t ≠ s := fun h2 => (List.nodup_cons.mp hond).1 (h2 ▸ ht)
        have : t ∉ delivered := hodis t (List.mem_cons_of_mem s ht)
        simp [List.mem_cons, hts, this])
      (by
        simp only [List.length_cons] at hlen ⊢
        omega)
    have heq : rest.reverse ++ (s :: delivered) = (s :: rest).reverse ++ delivered := by
      simp
    rw [heq] at hres
    simpa [succeedSeq] using hres

/-- Folding successes over all missing sources resolves the bridge. -/
theorem succeedSeq_last (bid ctr : Nat) (srcs : List Nat) :
    ∀ (order : List Nat) (w : World) (delivered : List Nat),
    AllScenario w bid ctr srcs delivered → order.Nodup →
    (∀ t ∈ order, t ∈ srcs) → (∀ t ∈ order, t ∉ delivered) →
    order.length + delivered.length = srcs.length →
    ((succeedSeq 9 w order).cells bid).result = some (GoVal.boolV true) := by
  intro order
  induction order with
  | nil =>
    intro w delivered sc _ _ _ hlen
    have := sc.del_lt
    simp only [List.length_nil] at hlen
    omega
  | cons s rest ih =>
    intro w delivered sc hond hosub hodis hlen
    have hs : s ∈ srcs := hosub s (List.mem_cons_self s rest)
    have hnd2 : s ∉ delivered := hodis s (List.mem_cons_self s rest)
    rcases Nat.eq_zero_or_pos rest.length with h0 | hposr
    · have hrest : rest = [] := List.length_eq_zero.mp h0
      subst hrest
      have hlast : delivered.length + 1 = srcs.length := by
        simp only [List.length_cons, List.length_nil] at hlen
        omega
      obtain ⟨hslot, _⟩ := succeed_step_last w bid ctr srcs delivered s sc hs hnd2 hlast
      simpa [succeedSeq] using hslot
    · have hlt : delivered.length + 1 < srcs.length := by
        simp only [List.length_cons] at hlen
        omega
      obtain ⟨sc2, _⟩ := succeed_step_mid w bid ctr srcs delivered s sc hs hnd2 hlt
      have hres := ih (Succeed 9 w s).1 (s :: delivered) sc2
        (List.Nodup.of_cons hond)
        (fun t ht => hosub t (List.mem_cons_of_mem s ht))
        (by
          intro t ht
          have hts : t ≠ s := fun h2 => (List.nodup_cons.mp hond).1 (h2 ▸ ht)
          have : t ∉ delivered := hodis t (List.mem_cons_of_mem s ht)
          simp [List.mem_cons, hts, this])
        (by
          simp only [List.length_cons] at hlen ⊢
          omega)
      simpa [succeedSeq] using hres

/-- Write-once monotonicity lifted to arbitrary later delivery sequences. -/
theorem deliverSeq_mono (fuel : Nat) :
    ∀ (ops : List (Nat × GoVal)) (w : World) (q : Nat) (r : GoVal),
    (w.cells q).result = some r →
    ((deliverSeq fuel w ops).cells q).result = some r := by
  intro ops
  induction ops with
  | nil =>
    intro w q r h
    simpa [deliverSeq] using h
  | cons p rest ih =>
    intro w q r h
    simp only [deliverSeq]
    exact ih _ _ _ (exec_mono fuel _ _ _ _ h)

end GoPromise

namespace GoPromise

/-- C2: the join-all combinator.  (a) `ThenAll` over zero promises on a
succeeded receiver resolves as success immediately.  (b) Over N distinct
pending sources the aggregate bridge built by `all` stays pending while any
source has not yet succeeded, and resolves as succeeded exactly once all N
have succeeded, in any delivery order.  (c) If any one source is canceled
while the bridge is unresolved, the bridge resolves as canceled — carrying
the cancellation marker, not a generic failure — and stays canceled under
every possible sequence of later deliveries to the other cells. -/
theorem C2_then_all (w : World) (srcs order : List Nat) (s0 : Nat) (ops : List (Nat × GoVal))
    (hnd : srcs.Nodup)
    (hcells : ∀ s ∈ srcs, w.cells s = emptyPromise)
    (hfresh : ∀ s ∈ srcs, s ≠ w.nextCell)
    (hpos : 0 < srcs.length)
    (hond : order.Nodup)
    (hosub : ∀ t ∈ order, t ∈ srcs) :
    ((ThenAll 9 (Succeed 3 (newPromise initWorld).2 1).1 1 []).1.2 = none ∧
     ((ThenAll 9 (Succeed 3 (newPromise initWorld).2 1).1 1 []).1.1.cells
        (ThenAll 9 (Succeed 3 (newPromise initWorld).2 1).1 1 []).2).IsSuccess = true) ∧
    (all 9 w srcs).1.2 = none ∧
    (order.length < srcs.length →
      ((succeedSeq 9 (all 9 w srcs).1.1 order).cells (all 9 w srcs).2).result = none) ∧
    (order.length = srcs.length →
      ((succeedSeq 9 (all 9 w srcs).1.1 order).cells (all 9 w srcs).2).IsSuccess = true) ∧
    (order.length < srcs.length → s0 ∈ srcs → s0 ∉ order →
      ((Cancel 9 (succeedSeq 9 (all 9 w srcs).1.1 order) s0).1.cells
          (all 9 w srcs).2).IsCanceled = true ∧
      ((Cancel 9 (succeedSeq 9 (all 9 w srcs).1.1 order) s0).1.cells
          (all 9 w srcs).2).Error = some GoError.promiseCanceled ∧
      ((deliverSeq 9 (Cancel 9 (succeedSeq 9 (all 9 w srcs).1.1 order) s0).1 ops).cells
          (all 9 w srcs).2).IsCanceled = true) := by
  obtain ⟨hp0, hbid, sc0⟩ := all_setup w srcs hnd hcells hfresh hpos
  have hdis : ∀ t ∈ order, t ∉ ([] : List Nat) := by simp
  refine ⟨⟨by decide, by decide⟩, hp0, ?_, ?_, ?_⟩
  · intro hlt
    have sc1 := succeedSeq_mid w.nextCell w.nextCtr srcs order (all 9 w srcs).1.1 []
      sc0 hond hosub hdis (by simpa using hlt)
    rw [hbid, sc1.bridge_cell]
    rfl
  · intro heq
    have hslot := succeedSeq_last w.nextCell w.nextCtr srcs order (all 9 w srcs).1.1 []
      sc0 hond hosub hdis (by simpa using heq)
    rw [hbid]
    simp [PromiseState.IsSuccess, hslot]
  · intro hlt hs0 hs0o
    have sc1 := succeedSeq_mid w.nextCell w.nextCtr srcs order (all 9 w srcs).1.1 []
      sc0 hond hosub hdis (by simpa using hlt)
    have hs0d : s0 ∉ order.reverse ++ ([] : List Nat) := by simpa using hs0o
    obtain ⟨hslot, _⟩ := cancel_step (succeedSeq 9 (all 9 w srcs).1.1 order)
      w.nextCell w.nextCtr srcs (order.reverse ++ []) s0 sc1 hs0 hs0d
    have hseq := deliverSeq_mono 9 ops _ w.nextCell (GoVal.errV GoError.promiseCanceled) hslot
    rw [hbid]
    refine ⟨?_, ?_, ?_⟩
    · simp [PromiseState.IsCanceled, PromiseState.Error, hslot]
    · simp [PromiseState.Error, hslot]
    · simp [PromiseState.IsCanceled, PromiseState.Error, hseq]

/-- Witness for C2: two fresh pending sources; success in a permuted order,
a strict subset leaving the bridge pending, and cancellation sticking. -/
theorem C2_then_all_witness :
    ((newPromise (newPromise initWorld).2).2.cells 1 = emptyPromise ∧
     (newPromise (newPromise initWorld).2).2.cells 2 = emptyPromise) ∧
    ((succeedSeq 9 (all 9 (newPromise (newPromise initWorld).2).2 [1, 2]).1.1 [2]).cells
       (all 9 (newPromise (newPromise initWorld).2).2 [1, 2]).2).result = none ∧
    ((succeedSeq 9 (all 9 (newPromise (newPromise initWorld).2).2 [1, 2]).1.1 [2, 1]).cells
       (all 9 (newPromise (newPromise initWorld).2).2 [1, 2]).2).IsSuccess = true ∧
    ((Cancel 9 (succeedSeq 9 (all 9 (newPromise (newPromise initWorld).2).2 [1, 2]).1.1 [2]) 1).1.cells
       (all 9 (newPromise (newPromise initWorld).2).2 [1, 2]).2).IsCanceled = true ∧
    ((deliverSeq 9
        (Cancel 9 (succeedSeq 9 (all 9 (newPromise (newPromise initWorld).2).2 [1, 2]).1.1 [2]) 1).1
        [(2, GoVal.boolV true)]).cells
       (all 9 (newPromise (newPromise initWorld).2).2 [1, 2]).2).IsCanceled = true := by
  have hlt := C2_then_all (newPromise (newPromise initWorld).2).2 [1, 2] [2] 1
    [(2, GoVal.boolV true)] (by decide) (by decide) (by decide) (by decide)
    (by decide) (by decide)
  have heq := C2_then_all (newPromise (newPromise initWorld).2).2 [1, 2] [2, 1] 1
    [] (by decide) (by decide) (by decide) (by decide)
    (by decide) (by decide)
  refine ⟨⟨by decide, by decide⟩, ?_, ?_, ?_, ?_⟩
  · exact hlt.2.2.1 (by decide)
  · exact heq.2.2.2.1 (by decide)
  · exact (hlt.2.2.2.2 (by decide) (by decide) (by decide)).1
  · exact (hlt.2.2.2.2 (by decide) (by decide) (by decide)).2.2

end GoPromise
